import Mathlib

/-!
Verification development for the `jules` command group (jules42.py), a set of
custom CLI extensions over a cloud-security SDK.  Each command is embedded as a
pure Lean function over the data the remote service would return: paginated
responses become lists of pages, SDK lookup endpoints become function
parameters, and the observable effects of a command (printed output, file
writes, issued requests, exit code) become explicit result values.
-/

/-! ## Audit log events (shared by verify-audit-log-dates and audit-log-total) -/

/-- One audit log event: a timestamp string plus the remaining payload of the
record, kept opaque. -/
structure AuditEvent where
  timestamp : String
  payload : List (String × String)
deriving DecidableEq

/-- Embedding of `audit_log_total` (jules42.py lines 170-181): iterate the
paginated audit log responses and sum the length of the `events` list of every
response that has one.  A page is `none` when its response lacks the `events`
key, mirroring the `if "events" in response.data` guard. -/
def audit_log_total (pages : List (Option (List AuditEvent))) : Nat :=
  pages.foldl
    (fun total_count response =>
      match response with
      | some events => total_count + events.length
      | none => total_count)
    0

/-- One line of terminal output produced by `verify_audit_log_dates`: either a
plain text line or an echoed event record. -/
inductive OutputLine where
  | text (s : String)
  | event (e : AuditEvent)
deriving DecidableEq

/-- Embedding of `verify_audit_log_dates` (jules42.py lines 71-84): scan every
event of every page; when `parse_timestamp` raises a value error on the
timestamp (modelled by the abstract predicate `parses` returning `false`),
echo the marker line and the original event, then keep scanning.
`parse_timestamp` itself lives in the external `code42cli` package, so it is a
parameter of the embedding. -/
def verify_audit_log_dates (parses : String → Bool)
    (pages : List (List AuditEvent)) : List OutputLine :=
  pages.foldl
    (fun out events =>
      events.foldl
        (fun out event =>
          if parses event.timestamp then out
          else out ++ [OutputLine.text "FOUND ONE!", OutputLine.event event])
        out)
    []

/-! ### Helper lemmas for the two audit log commands -/

theorem audit_log_total_foldl (pages : List (Option (List AuditEvent))) :
    ∀ acc : Nat,
      pages.foldl
        (fun total_count response =>
          match response with
          | some events => total_count + events.length
          | none => total_count)
        acc
      = acc + (pages.map (fun p => (p.getD []).length)).sum := by
  induction pages with
  | nil => intro acc; simp
  | cons p ps ih =>
    intro acc
    cases p with
    | none => simp [ih, List.foldl_cons]
    | some events => simp [ih, List.foldl_cons, Nat.add_assoc]

theorem verify_inner_foldl (parses : String → Bool)
    (events : List AuditEvent) :
    ∀ out : List OutputLine,
      events.foldl
        (fun out event =>
          if parses event.timestamp then out
          else out ++ [OutputLine.text "FOUND ONE!", OutputLine.event event])
        out
      = out ++ ((events.filter (fun e => ! parses e.timestamp)).map
          (fun e => [OutputLine.text "FOUND ONE!", OutputLine.event e])).flatten := by
  induction events with
  | nil => intro out; simp
  | cons e es ih =>
    intro out
    by_cases h : parses e.timestamp
    · simp [List.foldl_cons, h, ih]
    · simp [List.foldl_cons, h, ih]

theorem verify_outer_foldl (parses : String → Bool)
    (pages : List (List AuditEvent)) :
    ∀ out : List OutputLine,
      pages.foldl
        (fun out events =>
          events.foldl
            (fun out event =>
              if parses event.timestamp then out
              else out ++ [OutputLine.text "FOUND ONE!", OutputLine.event event])
            out)
        out
      = out ++ ((pages.flatten.filter (fun e => ! parses e.timestamp)).map
          (fun e => [OutputLine.text "FOUND ONE!", OutputLine.event e])).flatten := by
  induction pages with
  | nil => intro out; simp
  | cons page ps ih =>
    intro out
    rw [List.foldl_cons, ih, verify_inner_foldl parses page out]
    simp [List.filter_append, List.append_assoc]

/-! ## Claim theorems (audit log commands) -/

/-- C5: for every sequence of audit-log response pages where page i contributes
k_i events (a page without an `events` key contributes 0), `audit_log_total`
reports exactly the sum of the k_i over all pages. -/
theorem audit_log_total_is_sum (pages : List (Option (List AuditEvent))) :
    audit_log_total pages = (pages.map (fun p => (p.getD []).length)).sum := by
  unfold audit_log_total
  simpa using audit_log_total_foldl pages 0

/-- C7: for every event scanned by `verify_audit_log_dates`, an event whose
timestamp parses contributes no output, and an event whose timestamp fails to
parse contributes exactly one finding (the marker line followed by the original
event data), emitted in scan order; the scan covers every event of every page,
never halting early. -/
theorem verify_audit_log_dates_findings (parses : String → Bool)
    (pages : List (List AuditEvent)) :
    verify_audit_log_dates parses pages
      = ((pages.flatten.filter (fun e => ! parses e.timestamp)).map
          (fun e => [OutputLine.text "FOUND ONE!", OutputLine.event e])).flatten := by
  unfold verify_audit_log_dates
  simpa using verify_outer_foldl parses pages []

/-! ## The download command

The remote file store is modelled by two stream endpoints (one per hash kind);
each either yields the list of byte chunks produced by `iter_content` or
raises the checksum-not-found error.  The observable effect of a `download`
invocation records the exit code, the lines written to the error stream, the
file write (if the target file was opened at all) and the remote requests
issued. -/

/-- Result of a `stream_file_by_md5` / `stream_file_by_sha256` call: either a
stream of byte chunks, or the checksum-not-found exception with its message. -/
inductive StreamResult where
  | ok (chunks : List (List Nat))
  | checksumNotFound (msg : String)

/-- The `securitydata` portion of the SDK: one stream endpoint per hash kind. -/
structure SecurityData where
  md5Stream : String → StreamResult
  sha256Stream : String → StreamResult

/-- A remote request issued by the download command, tagged by hash kind. -/
inductive HashReq where
  | md5 (h : String)
  | sha256 (h : String)
deriving DecidableEq

/-- Observable effect of one `download` invocation. -/
structure DownloadEffect where
  exitCode : Nat
  stderrLines : List String
  fileWrite : Option (String × String)
  requests : List HashReq
deriving DecidableEq

/-- Truthiness of an optional string in the Python sense: `None` and the empty
string are falsy, every other string is truthy. -/
def truthyOptStr : Option String → Bool
  | none => false
  | some s => !(s == "")

/-- Lower-case hexadecimal digit, as used by the Python bytes repr. -/
def pyHexChar (n : Nat) : Char :=
  if n < 10 then Char.ofNat (48 + n) else Char.ofNat (87 + n)

/-- Escape of one byte inside a Python bytes repr with the given quote byte:
backslash and the quote are backslash-escaped, tab, newline and carriage
return become two-character escapes, printable ASCII stands for itself, and
every other byte becomes a lower-case hexadecimal escape. -/
def pyByteEscape (quote : Nat) (b : Nat) : String :=
  if b = 92 then "\\\\"
  else if b = quote then "\\" ++ (Char.ofNat quote).toString
  else if b = 9 then "\\t"
  else if b = 10 then "\\n"
  else if b = 13 then "\\r"
  else if 32 ≤ b ∧ b < 127 then (Char.ofNat b).toString
  else "\\x" ++ (pyHexChar (b / 16 % 16)).toString ++ (pyHexChar (b % 16)).toString

/-- Quote byte chosen by the Python bytes repr: a double quote when the bytes
contain a single quote but no double quote, a single quote otherwise. -/
def pyReprQuote (bs : List Nat) : Nat :=
  if bs.contains 39 && !(bs.contains 34) then 34 else 39

/-- Model of Python `str(chunk)` for a bytes object: the `b` prefix, the chosen
quote, the escaped bytes, and the closing quote. -/
def pyReprBytes (bs : List Nat) : String :=
  let q := pyReprQuote bs
  "b" ++ (Char.ofNat q).toString
    ++ String.join (bs.map (pyByteEscape q)) ++ (Char.ofNat q).toString

/-- Content written to the target file on the success path: for every chunk of
the stream, skipping falsy (empty) chunks, `f.write(str(chunk))` appends the
Python repr of the chunk (the file is opened in text mode). -/
def writeChunks (chunks : List (List Nat)) : String :=
  String.join ((chunks.filter (fun c => !c.isEmpty)).map pyReprBytes)

/-- A byte sequence read as text, byte for byte: the content the target file
would hold if the remote byte stream were written to it unmodified.  This is
the spec-side meaning of writing the downloaded bytes to the file, used to
compare against the content the code actually writes. -/
def rawBytesAsString (bs : List Nat) : String :=
  String.mk (bs.map (fun b => Char.ofNat b))

/-- Message of the usage error raised when neither hash option is supplied. -/
def usageErrorMessage : String := "Missing one of required md5 or sha256 options."

/-- Embedding of `download` (jules42.py lines 100-121).  The `if md5: / elif
sha256: / else raise` chain selects the stream endpoint by Python truthiness;
a checksum-not-found error is caught, its message echoed to stderr, and the
command returns (exit code 0) before the target file is ever opened; a usage
error exits non-zero with no request issued; on a successful stream the target
file is opened (created or truncated) and the chunks are written via
`str(chunk)`. -/
def download (sd : SecurityData) (md5 sha256 : Option String)
    (save_as : String) : DownloadEffect :=
  if truthyOptStr md5 then
    match sd.md5Stream (md5.getD "") with
    | StreamResult.checksumNotFound msg =>
        { exitCode := 0, stderrLines := [msg], fileWrite := none,
          requests := [HashReq.md5 (md5.getD "")] }
    | StreamResult.ok chunks =>
        { exitCode := 0, stderrLines := [],
          fileWrite := some (save_as, writeChunks chunks),
          requests := [HashReq.md5 (md5.getD "")] }
  else if truthyOptStr sha256 then
    match sd.sha256Stream (sha256.getD "") with
    | StreamResult.checksumNotFound msg =>
        { exitCode := 0, stderrLines := [msg], fileWrite := none,
          requests := [HashReq.sha256 (sha256.getD "")] }
    | StreamResult.ok chunks =>
        { exitCode := 0, stderrLines := [],
          fileWrite := some (save_as, writeChunks chunks),
          requests := [HashReq.sha256 (sha256.getD "")] }
  else
    { exitCode := 1, stderrLines := ["Error: " ++ usageErrorMessage],
      fileWrite := none, requests := [] }

/-- The stream result the remote store returns for a given request. -/
def streamFor (sd : SecurityData) : HashReq → StreamResult
  | HashReq.md5 h => sd.md5Stream h
  | HashReq.sha256 h => sd.sha256Stream h

/-! ## Claim theorems (download command) -/

/-- C2: whenever the request the download command issues is answered by the
remote store with a checksum-not-found error, the command echoes the error
message to the error stream and aborts without opening the target file, so no
file is created, overwritten or truncated. -/
theorem download_checksum_error_writes_nothing
    (sd : SecurityData) (md5 sha256 : Option String) (save_as : String)
    (r : HashReq) (msg : String)
    (hreq : (download sd md5 sha256 save_as).requests = [r])
    (herr : streamFor sd r = StreamResult.checksumNotFound msg) :
    (download sd md5 sha256 save_as).stderrLines = [msg]
      ∧ (download sd md5 sha256 save_as).fileWrite = none := by
  unfold download at *
  by_cases h5 : truthyOptStr md5
  · simp only [h5, if_true] at *
    cases hres : sd.md5Stream (md5.getD "") with
    | checksumNotFound m =>
      simp only [hres] at hreq ⊢
      simp only [List.cons.injEq] at hreq
      cases hreq.1
      simp only [streamFor, hres, StreamResult.checksumNotFound.injEq] at herr
      simp [herr]
    | ok chunks =>
      simp only [hres] at hreq ⊢
      simp only [List.cons.injEq] at hreq
      cases hreq.1
      simp only [streamFor, hres] at herr
      exact StreamResult.noConfusion herr
  · by_cases h2 : truthyOptStr sha256
    · simp only [h5, h2, if_false, if_true, Bool.false_eq_true] at *
      cases hres : sd.sha256Stream (sha256.getD "") with
      | checksumNotFound m =>
        simp only [hres] at hreq ⊢
        simp only [List.cons.injEq] at hreq
        cases hreq.1
        simp only [streamFor, hres, StreamResult.checksumNotFound.injEq] at herr
        simp [herr]
      | ok chunks =>
        simp only [hres] at hreq ⊢
        simp only [List.cons.injEq] at hreq
        cases hreq.1
        simp only [streamFor, hres] at herr
        exact StreamResult.noConfusion herr
    · simp [h5, h2] at hreq

/-- Remote store used by the concrete download witnesses and counterexamples:
md5 lookups fail with a checksum-not-found error, sha256 lookups stream one
three-byte chunk. -/
def sdFixture : SecurityData where
  md5Stream := fun _ => StreamResult.checksumNotFound "No files found with MD5 checksum"
  sha256Stream := fun _ => StreamResult.ok [[97, 98, 99]]

/-- Witness for C2 at a concrete input: the md5 endpoint of `sdFixture` raises
checksum-not-found, and the effect reports the message with no file write. -/
theorem download_checksum_error_writes_nothing_witness :
    (download sdFixture (some "d41d8cd9") none "download").requests
        = [HashReq.md5 "d41d8cd9"]
      ∧ streamFor sdFixture (HashReq.md5 "d41d8cd9")
        = StreamResult.checksumNotFound "No files found with MD5 checksum"
      ∧ ((download sdFixture (some "d41d8cd9") none "download").stderrLines
          = ["No files found with MD5 checksum"]
        ∧ (download sdFixture (some "d41d8cd9") none "download").fileWrite = none) :=
  ⟨rfl, rfl,
    download_checksum_error_writes_nothing sdFixture (some "d41d8cd9") none
      "download" (HashReq.md5 "d41d8cd9") "No files found with MD5 checksum"
      rfl rfl⟩

/-- C3 (failing input): on a successful download of the single chunk
`b\x7b97,98,99\x7d` (the bytes of "abc"), the code writes `str(chunk)` — the
Python repr of the bytes object — to a text-mode file, so the file content is
the seven characters of the repr and not the three raw bytes of the stream.
The bytes written differ from the remote byte stream. -/
theorem download_writes_repr_not_bytes :
    (download sdFixture none (some "aabbcc") "download").fileWrite
        = some ("download", pyReprBytes [97, 98, 99])
      ∧ pyReprBytes [97, 98, 99] ≠ rawBytesAsString [97, 98, 99] := by
  constructor
  · rfl
  · decide

/-- C8: when neither the md5 nor the sha256 option is supplied, the download
command fails with the usage error: non-zero exit code, no remote request
issued, and no file created or written. -/
theorem download_missing_hash_usage_error (sd : SecurityData) (save_as : String) :
    download sd none none save_as
        = { exitCode := 1, stderrLines := ["Error: " ++ usageErrorMessage],
            fileWrite := none, requests := [] }
      ∧ (download sd none none save_as).exitCode ≠ 0 := by
  constructor
  · rfl
  · simp [download, truthyOptStr]

/-- C10 (counterexample): supplying both options with an empty md5 value makes
the command request the file by sha256, so the md5 option does not always take
precedence when both options are supplied. -/
theorem download_both_options_counterexample :
    (download sdFixture (some "") (some "aabbcc") "download").requests
        = [HashReq.sha256 "aabbcc"]
      ∧ HashReq.md5 "" ∉ (download sdFixture (some "") (some "aabbcc") "download").requests := by
  constructor
  · rfl
  · decide

/-- C10 (amended): when both options are supplied and the md5 value is
non-empty (truthy), the md5 hash takes precedence: the single request issued is
the md5 request, and no sha256 request is issued. -/
theorem download_md5_precedence (sd : SecurityData) (m s save_as : String)
    (hm : m ≠ "") :
    (download sd (some m) (some s) save_as).requests = [HashReq.md5 m] := by
  have ht : truthyOptStr (some m) = true := by
    simp [truthyOptStr, hm]
  unfold download
  rw [ht]
  simp only [if_true, Option.getD_some]
  cases sd.md5Stream m <;> rfl

/-- Witness for the amended C10 at a concrete input. -/
theorem download_md5_precedence_witness :
    ("aa" : String) ≠ ""
      ∧ (download sdFixture (some "aa") (some "bb") "download").requests
        = [HashReq.md5 "aa"] :=
  ⟨by decide, download_md5_precedence sdFixture "aa" "bb" "download" (by decide)⟩

/-! ## The list-managers command

Python dictionaries preserve insertion order, so the `managers` dictionary is
embedded as an association list: a key is added at the end on first insertion
and its value list is extended in place afterwards. -/

/-- One user record from a page of `users.get_all()`. -/
structure DirectoryUser where
  userUid : String
  username : String
deriving DecidableEq

/-- Manager username resolved for one user, as the source guards it: the
per-user detail endpoint (`detectionlists.get_user_by_id` followed by
`.data.get("managerUsername")`, embedded as the `lookup` parameter) may return
no value, and the `if manager_username:` truthiness test also rejects the
empty string. -/
def resolvedManager (lookup : String → Option String) (u : DirectoryUser) :
    Option String :=
  match lookup u.userUid with
  | none => none
  | some m => if m = "" then none else some m

/-- One dictionary update of `list_managers`: append the username to the
existing entry of the manager, or add a new entry at the end.  The
`managers.any` test mirrors the `manager_username not in managers`
membership test on dictionary keys. -/
def addEmployee (managers : List (String × List String))
    (manager_username username : String) : List (String × List String) :=
  if managers.any (fun p => p.1 == manager_username) then
    managers.map (fun p =>
      if p.1 == manager_username then (p.1, p.2 ++ [username]) else p)
  else
    managers ++ [(manager_username, [username])]

/-- Processing of one user record by `list_managers`: resolve the manager
username and, when it is truthy, record the employee under it. -/
def managerStep (lookup : String → Option String)
    (managers : List (String × List String)) (user : DirectoryUser) :
    List (String × List String) :=
  match lookup user.userUid with
  | none => managers
  | some manager_username =>
    if manager_username = "" then managers
    else addEmployee managers manager_username user.username

/-- Embedding of `list_managers` (jules42.py lines 26-46): fold every user of
every page of `users.get_all()` through the dictionary update, starting from
an empty dictionary.  The resulting association list is what `output_pretty`
prints. -/
def list_managers (lookup : String → Option String)
    (pages : List (List DirectoryUser)) : List (String × List String) :=
  pages.foldl
    (fun managers users => users.foldl (managerStep lookup) managers)
    []

/-- Lookup of a key in the association list embedding of the dictionary. -/
def lookupGroup : List (String × List String) → String → Option (List String)
  | [], _ => none
  | p :: ps, m => if p.1 = m then some p.2 else lookupGroup ps m

/-- Keys of the dictionary, in insertion order. -/
def keysOf (managers : List (String × List String)) : List String :=
  managers.map Prod.fst

/-- Usernames of the users whose resolved manager username is `m`, in
encounter order: the employee list the spec prescribes for the group `m`. -/
def employeesOf (lookup : String → Option String)
    (users : List DirectoryUser) (m : String) : List String :=
  (users.filter (fun u => resolvedManager lookup u == some m)).map
    DirectoryUser.username

/-- Append a batch of employees to an optional existing group value. -/
def optAppend (o : Option (List String)) (es : List String) :
    Option (List String) :=
  match o with
  | none => if es.isEmpty then none else some es
  | some v => some (v ++ es)

/-- First occurrence of every element of the list, in first-seen order. -/
def firstSeen : List String → List String
  | [] => []
  | x :: xs => x :: firstSeen (xs.filter (fun y => !(y == x)))
termination_by l => l.length
decreasing_by simpa using Nat.lt_succ_of_le (List.length_filter_le _ xs)

/-! ### Dictionary lemmas -/

theorem lookupGroup_map_add (m u : String) (acc : List (String × List String)) :
    ∀ m' : String,
      lookupGroup
          (acc.map (fun p => if p.1 == m then (p.1, p.2 ++ [u]) else p)) m'
        = if m' = m then (lookupGroup acc m').map (fun v => v ++ [u])
          else lookupGroup acc m' := by
  induction acc with
  | nil => intro m'; by_cases h : m' = m <;> simp [lookupGroup, h]
  | cons p ps ih =>
    intro m'
    simp only [List.map_cons]
    by_cases hpm : p.1 = m <;> by_cases hm1 : p.1 = m' <;>
      by_cases hm2 : m' = m <;>
      simp [lookupGroup, hpm, hm1, hm2, ih] <;> simp_all

theorem lookupGroup_append_single (acc : List (String × List String))
    (m u : String) :
    ∀ m' : String,
      lookupGroup (acc ++ [(m, [u])]) m'
        = match lookupGroup acc m' with
          | some v => some v
          | none => if m' = m then some [u] else none := by
  induction acc with
  | nil =>
    intro m'
    by_cases h : m' = m
    · simp [lookupGroup, h]
    · have h' : ¬ m = m' := fun hh => h hh.symm
      simp [lookupGroup, h, h']
  | cons p ps ih =>
    intro m'
    by_cases h : p.1 = m' <;> simp [lookupGroup, h, ih]

theorem lookupGroup_eq_none (acc : List (String × List String)) (m : String) :
    lookupGroup acc m = none ↔ m ∉ keysOf acc := by
  induction acc with
  | nil => simp [lookupGroup, keysOf]
  | cons p ps ih =>
    have hk : keysOf (p :: ps) = p.1 :: keysOf ps := rfl
    rw [hk]
    by_cases h : p.1 = m
    · subst h
      simp [lookupGroup]
    · rw [show lookupGroup (p :: ps) m = lookupGroup ps m from if_neg h, ih]
      have h' : ¬ m = p.1 := fun hh => h hh.symm
      simp [List.mem_cons, h']

theorem any_key_iff (acc : List (String × List String)) (m : String) :
    acc.any (fun p => p.1 == m) = true ↔ m ∈ keysOf acc := by
  simp [List.any_eq_true, keysOf, List.mem_map, beq_iff_eq]

theorem lookupGroup_addEmployee (acc : List (String × List String))
    (m u : String) :
    ∀ m' : String,
      lookupGroup (addEmployee acc m u) m'
        = if m' = m then some ((lookupGroup acc m).getD [] ++ [u])
          else lookupGroup acc m' := by
  intro m'
  unfold addEmployee
  by_cases hany : acc.any (fun p => p.1 == m) = true
  · rw [if_pos hany, lookupGroup_map_add]
    by_cases hm : m' = m
    · subst hm
      have hmem : m' ∈ keysOf acc := (any_key_iff acc m').mp hany
      obtain ⟨v, hv⟩ : ∃ v, lookupGroup acc m' = some v := by
        cases hlk : lookupGroup acc m' with
        | none => exact absurd ((lookupGroup_eq_none acc m').mp hlk) (by simp [hmem])
        | some v => exact ⟨v, rfl⟩
      simp [hv]
    · simp [hm]
  · rw [if_neg hany, lookupGroup_append_single]
    have hnone : lookupGroup acc m = none :=
      (lookupGroup_eq_none acc m).mpr
        (fun hmem => hany ((any_key_iff acc m).mpr hmem))
    by_cases hm : m' = m
    · subst hm; simp [hnone]
    · cases hlk : lookupGroup acc m' <;> simp [hm]

theorem keysOf_addEmployee (acc : List (String × List String)) (m u : String) :
    keysOf (addEmployee acc m u)
      = if m ∈ keysOf acc then keysOf acc else keysOf acc ++ [m] := by
  unfold addEmployee
  by_cases hany : acc.any (fun p => p.1 == m) = true
  · rw [if_pos hany, if_pos ((any_key_iff acc m).mp hany)]
    unfold keysOf
    rw [List.map_map]
    apply List.map_congr_left
    intro p _
    by_cases h : p.1 = m <;> simp [h]
  · rw [if_neg hany,
      if_neg (fun hmem => hany ((any_key_iff acc m).mpr hmem))]
    simp [keysOf]

theorem managerStep_eq (lookup : String → Option String)
    (acc : List (String × List String)) (u : DirectoryUser) :
    managerStep lookup acc u
      = match resolvedManager lookup u with
        | none => acc
        | some m => addEmployee acc m u.username := by
  unfold managerStep resolvedManager
  cases lookup u.userUid with
  | none => rfl
  | some m => by_cases h : m = "" <;> simp [h]

theorem lookupGroup_foldl (lookup : String → Option String)
    (users : List DirectoryUser) :
    ∀ (acc : List (String × List String)) (m : String),
      lookupGroup (users.foldl (managerStep lookup) acc) m
        = optAppend (lookupGroup acc m) (employeesOf lookup users m) := by
  induction users with
  | nil =>
    intro acc m
    cases h : lookupGroup acc m <;> simp [employeesOf, optAppend, h]
  | cons u us ih =>
    intro acc m
    rw [List.foldl_cons, ih, managerStep_eq]
    cases hr : resolvedManager lookup u with
    | none =>
      have hfilt : employeesOf lookup (u :: us) m = employeesOf lookup us m := by
        simp [employeesOf, List.filter_cons, hr]
      rw [hfilt]
    | some mu =>
      by_cases hm : m = mu
      · subst hm
        have hfilt : employeesOf lookup (u :: us) m
            = u.username :: employeesOf lookup us m := by
          simp [employeesOf, List.filter_cons, hr]
        rw [hfilt, lookupGroup_addEmployee, if_pos rfl]
        cases hlk : lookupGroup acc m <;> simp [optAppend]
      · have hmu : ¬ mu = m := fun hh => hm hh.symm
        have hfilt : employeesOf lookup (u :: us) m = employeesOf lookup us m := by
          simp [employeesOf, List.filter_cons, hr, hmu]
        rw [hfilt, lookupGroup_addEmployee, if_neg hm]

theorem keysOf_foldl (lookup : String → Option String)
    (users : List DirectoryUser) :
    ∀ acc : List (String × List String),
      keysOf (users.foldl (managerStep lookup) acc)
        = (users.filterMap (resolvedManager lookup)).foldl
            (fun ks m => if m ∈ ks then ks else ks ++ [m]) (keysOf acc) := by
  induction users with
  | nil => intro acc; simp
  | cons u us ih =>
    intro acc
    rw [List.foldl_cons, ih, managerStep_eq]
    cases hr : resolvedManager lookup u with
    | none => simp [List.filterMap_cons, hr]
    | some mu =>
      simp only [List.filterMap_cons, hr, List.foldl_cons]
      rw [keysOf_addEmployee]

theorem firstSeen_cons (x : String) (xs : List String) :
    firstSeen (x :: xs) = x :: firstSeen (xs.filter (fun y => !(y == x))) := by
  rw [firstSeen]

theorem foldl_dedup_firstSeen :
    ∀ l seen : List String,
      l.foldl (fun ks m => if m ∈ ks then ks else ks ++ [m]) seen
        = seen ++ firstSeen (l.filter (fun m => !(decide (m ∈ seen)))) := by
  intro l
  induction l with
  | nil => intro seen; simp [firstSeen]
  | cons x xs ih =>
    intro seen
    by_cases hx : x ∈ seen
    · rw [List.foldl_cons, if_pos hx, ih]
      have hhead : (x :: xs).filter (fun m => !(decide (m ∈ seen)))
          = xs.filter (fun m => !(decide (m ∈ seen))) := by
        simp [List.filter_cons, hx]
      rw [hhead]
    · rw [List.foldl_cons, if_neg hx, ih]
      have hhead : (x :: xs).filter (fun m => !(decide (m ∈ seen)))
          = x :: xs.filter (fun m => !(decide (m ∈ seen))) := by
        simp [List.filter_cons, hx]
      rw [hhead, firstSeen_cons, List.filter_filter]
      have hpred : xs.filter (fun m => !(decide (m ∈ seen ++ [x])))
          = xs.filter (fun a => (!(a == x)) && (!(decide (a ∈ seen)))) := by
        apply List.filter_congr
        intro a _
        by_cases h1 : a ∈ seen <;> by_cases h2 : a = x <;>
          simp [h1, h2, List.mem_append]
      rw [hpred]
      simp [List.append_assoc]

theorem mem_of_mem_firstSeen :
    ∀ (n : Nat) (l : List String), l.length ≤ n →
      ∀ a, a ∈ firstSeen l → a ∈ l := by
  intro n
  induction n with
  | zero =>
    intro l hl a ha
    have hnil : l = [] := List.length_eq_zero.mp (Nat.le_zero.mp hl)
    subst hnil
    simp [firstSeen] at ha
  | succ n ihn =>
    intro l hl a ha
    cases l with
    | nil => simp [firstSeen] at ha
    | cons x xs =>
      rw [firstSeen_cons] at ha
      rcases List.mem_cons.mp ha with rfl | hmem
      · exact List.mem_cons_self _ _
      · have hlen : (xs.filter (fun y => !(y == x))).length ≤ n :=
          le_trans (List.length_filter_le _ _)
            (Nat.succ_le_succ_iff.mp hl)
        exact List.mem_cons_of_mem _
          (List.mem_of_mem_filter (ihn _ hlen a hmem))

theorem firstSeen_nodup_aux :
    ∀ (n : Nat) (l : List String), l.length ≤ n → (firstSeen l).Nodup := by
  intro n
  induction n with
  | zero =>
    intro l hl
    have hnil : l = [] := List.length_eq_zero.mp (Nat.le_zero.mp hl)
    subst hnil
    simp [firstSeen]
  | succ n ihn =>
    intro l hl
    cases l with
    | nil => simp [firstSeen]
    | cons x xs =>
      have hlen : (xs.filter (fun y => !(y == x))).length ≤ n :=
        le_trans (List.length_filter_le _ _) (Nat.succ_le_succ_iff.mp hl)
      rw [firstSeen_cons]
      refine List.nodup_cons.mpr ⟨?_, ihn _ hlen⟩
      intro hmem
      have hx : x ∈ xs.filter (fun y => !(y == x)) :=
        mem_of_mem_firstSeen n _ hlen x hmem
      have := List.of_mem_filter hx
      simp at this

theorem firstSeen_nodup (l : List String) : (firstSeen l).Nodup :=
  firstSeen_nodup_aux l.length l le_rfl

/-! ## Claim theorem (list-managers command) -/

/-- C1: the mapping built by `list_managers` has exactly one entry per
distinct non-empty resolved manager username — its keys are the resolved
manager usernames in first-encountered order, without duplicates — and the
value stored for a manager is exactly the list of usernames of the users
whose resolved manager username it is, in encounter order, with duplicates
exactly as present in the input; a manager with no employees has no entry, so
a user whose resolved manager username is absent or empty contributes to no
group. -/
theorem list_managers_spec (lookup : String → Option String)
    (pages : List (List DirectoryUser)) :
    keysOf (list_managers lookup pages)
        = firstSeen (pages.flatten.filterMap (resolvedManager lookup))
      ∧ (keysOf (list_managers lookup pages)).Nodup
      ∧ ∀ m, lookupGroup (list_managers lookup pages) m
          = if (employeesOf lookup pages.flatten m).isEmpty then none
            else some (employeesOf lookup pages.flatten m) := by
  have hflat : list_managers lookup pages
      = pages.flatten.foldl (managerStep lookup) [] := by
    unfold list_managers
    rw [List.foldl_flatten]
  have hkeys : keysOf (list_managers lookup pages)
      = firstSeen (pages.flatten.filterMap (resolvedManager lookup)) := by
    rw [hflat, keysOf_foldl, foldl_dedup_firstSeen]
    have h1 : keysOf ([] : List (String × List String)) = [] := rfl
    rw [h1]
    rw [List.nil_append]
    congr 1
    apply List.filter_eq_self.mpr
    intro a _
    simp
  refine ⟨hkeys, ?_, ?_⟩
  · rw [hkeys]
    exact firstSeen_nodup _
  · intro m
    rw [hflat, lookupGroup_foldl]
    rfl

/-! ## The list-alert-urls command -/

/-- One alert record from a page of `alerts.search`; only its `id` field is
read by the command. -/
structure Alert where
  id : String
deriving DecidableEq

/-- Aggregate details view of one alert, restricted to the fields the command
reads.  `get_alert_aggregate_data` lives in a sibling module of the
repository, so it is a parameter of the embedding. -/
structure AlertAggregate where
  id : String
  ffsUrlEndpoint : String
  alertUrl : String
deriving DecidableEq

/-- The record printed for one alert id (jules42.py lines 161-167): a
dictionary with the keys `id`, `ffsUrl` and `alertUrl` filled from the
aggregate lookup. -/
def alertRecord (agg : String → AlertAggregate) (alert_id : String) :
    List (String × String) :=
  let alert_data := agg alert_id
  [("id", alert_data.id),
   ("ffsUrl", alert_data.ffsUrlEndpoint),
   ("alertUrl", alert_data.alertUrl)]

/-- Embedding of the page-fetching while loop of `list_alert_urls` (jules42.py
lines 151-157): while the current page holds at least 500 records, fetch the
next page, extend the collected alerts, and record the request.  `fuel` bounds
the number of loop iterations; `none` means the loop did not finish within
`fuel` iterations. -/
def alertSearchLoop (search : Nat → List Alert) (fuel page_num : Nat)
    (alerts : List Alert) (requested : List Nat) :
    Option (List Alert × List Nat) :=
  if 500 ≤ (search page_num).length then
    match fuel with
    | 0 => none
    | fuel' + 1 =>
        alertSearchLoop search fuel' (page_num + 1)
          (alerts ++ search (page_num + 1)) (requested ++ [page_num + 1])
  else some (alerts, requested)
termination_by fuel

/-- Embedding of `list_alert_urls` (jules42.py lines 145-167): fetch page 1,
run the pagination loop, then print one three-field record per collected
alert id.  The result pairs the printed records with the page numbers
requested, and is `none` when the loop runs out of fuel. -/
def list_alert_urls (search : Nat → List Alert) (agg : String → AlertAggregate)
    (fuel : Nat) : Option (List (List (String × String)) × List Nat) :=
  match alertSearchLoop search fuel 1 (search 1) [1] with
  | none => none
  | some (alerts, requested) =>
      some ((alerts.map Alert.id).map (alertRecord agg), requested)

theorem alertSearchLoop_stop (search : Nat → List Alert) (fuel p : Nat)
    (alerts : List Alert) (reqs : List Nat)
    (h : (search p).length < 500) :
    alertSearchLoop search fuel p alerts reqs = some (alerts, reqs) := by
  unfold alertSearchLoop
  rw [if_neg (Nat.not_le.mpr h)]

theorem alertSearchLoop_step (search : Nat → List Alert) (fuel p : Nat)
    (alerts : List Alert) (reqs : List Nat)
    (h : 500 ≤ (search p).length) :
    alertSearchLoop search (fuel + 1) p alerts reqs
      = alertSearchLoop search fuel (p + 1) (alerts ++ search (p + 1))
          (reqs ++ [p + 1]) := by
  conv_lhs => rw [alertSearchLoop]
  rw [if_pos h]

theorem alertSearchLoop_run (search : Nat → List Alert) :
    ∀ d fuel p : Nat, ∀ alerts : List Alert, ∀ reqs : List Nat,
      (∀ j, j < d → 500 ≤ (search (p + j)).length) →
      (search (p + d)).length < 500 →
      d ≤ fuel →
      alertSearchLoop search fuel p alerts reqs
        = some (alerts ++ ((List.range' (p + 1) d).map search).flatten,
                reqs ++ List.range' (p + 1) d) := by
  intro d
  induction d with
  | zero =>
    intro fuel p alerts reqs hlong hshort hfuel
    rw [alertSearchLoop_stop search fuel p alerts reqs (by simpa using hshort)]
    simp [List.range']
  | succ d ihd =>
    intro fuel p alerts reqs hlong hshort hfuel
    have h0 : 500 ≤ (search p).length := by
      simpa using hlong 0 (Nat.succ_pos d)
    cases fuel with
    | zero => exact absurd hfuel (by omega)
    | succ fuel' =>
      rw [alertSearchLoop_step search fuel' p alerts reqs h0]
      rw [ihd fuel' (p + 1) (alerts ++ search (p + 1)) (reqs ++ [p + 1])
        (fun j hj => by
          have := hlong (j + 1) (by omega)
          rw [show p + 1 + j = p + (j + 1) from by omega]
          exact this)
        (by
          rw [show p + 1 + d = p + (d + 1) from by omega]
          exact hshort)
        (by omega)]
      have hrange : List.range' (p + 1) (d + 1)
          = (p + 1) :: List.range' (p + 2) d := by
        rw [List.range'_succ]
      rw [hrange]
      simp [List.append_assoc]

/-- Run of the pagination loop from its start state: when page `k` is the
first page with fewer than 500 records, the loop returns the alerts of pages
1 through `k` in order and the requested pages are exactly 1 through `k`. -/
theorem alertSearchLoop_from_start (search : Nat → List Alert) (k fuel : Nat)
    (hk : 1 ≤ k)
    (hshort : (search k).length < 500)
    (hlong : ∀ i, 1 ≤ i → i < k → 500 ≤ (search i).length)
    (hfuel : k - 1 ≤ fuel) :
    alertSearchLoop search fuel 1 (search 1) [1]
      = some (((List.range' 1 k).map search).flatten, List.range' 1 k) := by
  have hrun := alertSearchLoop_run search (k - 1) fuel 1 (search 1) [1]
    (fun j hj => hlong (1 + j) (by omega) (by omega))
    (by rw [show 1 + (k - 1) = k from by omega]; exact hshort)
    hfuel
  rw [hrun]
  have hrange : List.range' 1 k = 1 :: List.range' 2 (k - 1) := by
    conv_lhs => rw [show k = (k - 1) + 1 from by omega]
    rw [List.range'_succ]
  rw [hrange]
  simp

/-! ## Claim theorems (list-alert-urls command) -/

/-- C6: whenever some page eventually contains fewer than 500 records, the
page-fetching loop of `list_alert_urls` terminates at the first such page
`k`, having collected exactly the alerts of pages 1 through `k` in order, and
the search requests issued are exactly pages 1 through `k` — none afterwards. -/
theorem list_alert_urls_loop_terminates (search : Nat → List Alert)
    (k fuel : Nat) (hk : 1 ≤ k)
    (hshort : (search k).length < 500)
    (hlong : ∀ i, 1 ≤ i → i < k → 500 ≤ (search i).length)
    (hfuel : k - 1 ≤ fuel) :
    alertSearchLoop search fuel 1 (search 1) [1]
      = some (((List.range' 1 k).map search).flatten, List.range' 1 k) :=
  alertSearchLoop_from_start search k fuel hk hshort hlong hfuel

/-- Paged alert search used by the concrete witnesses: page 1 holds exactly
500 alerts, page 2 holds one alert, later pages are empty. -/
def searchFixture : Nat → List Alert := fun page_num =>
  if page_num = 1 then List.replicate 500 (Alert.mk "a-0")
  else if page_num = 2 then [Alert.mk "a-500"] else []

theorem searchFixture_one : searchFixture 1 = List.replicate 500 (Alert.mk "a-0") := rfl

theorem searchFixture_two : searchFixture 2 = [Alert.mk "a-500"] := rfl

/-- Witness for C6 at a concrete input: with `searchFixture`, page 2 is the
first short page, and the loop stops there having requested pages 1 and 2. -/
theorem list_alert_urls_loop_terminates_witness :
    (1 ≤ 2 ∧ (searchFixture 2).length < 500
        ∧ (∀ i, 1 ≤ i → i < 2 → 500 ≤ (searchFixture i).length)
        ∧ 2 - 1 ≤ 1)
      ∧ alertSearchLoop searchFixture 1 1 (searchFixture 1) [1]
        = some (((List.range' 1 2).map searchFixture).flatten,
            List.range' 1 2) := by
  have hlong : ∀ i, 1 ≤ i → i < 2 → 500 ≤ (searchFixture i).length := by
    intro i h1 h2
    have hi : i = 1 := by omega
    subst hi
    rw [searchFixture_one, List.length_replicate]
  have hshort : (searchFixture 2).length < 500 := by
    rw [searchFixture_two]
    norm_num
  refine ⟨⟨by omega, hshort, hlong, by omega⟩, ?_⟩
  exact list_alert_urls_loop_terminates searchFixture 2 1 (by omega)
    hshort hlong (by omega)

/-- C4: for every paged alert search result (terminating at a first short
page `k`), `list_alert_urls` prints for each collected alert one record with
exactly the three keys `id`, `ffsUrl` and `alertUrl`, each value taken from
the aggregate lookup for that alert's id. -/
theorem list_alert_urls_three_field_records (search : Nat → List Alert)
    (agg : String → AlertAggregate) (k fuel : Nat) (hk : 1 ≤ k)
    (hshort : (search k).length < 500)
    (hlong : ∀ i, 1 ≤ i → i < k → 500 ≤ (search i).length)
    (hfuel : k - 1 ≤ fuel) :
    list_alert_urls search agg fuel
      = some ((((List.range' 1 k).map search).flatten).map (fun a =>
            [("id", (agg a.id).id),
             ("ffsUrl", (agg a.id).ffsUrlEndpoint),
             ("alertUrl", (agg a.id).alertUrl)]),
          List.range' 1 k) := by
  have hfun : ((((List.range' 1 k).map search).flatten).map Alert.id).map
        (alertRecord agg)
      = (((List.range' 1 k).map search).flatten).map (fun a =>
          [("id", (agg a.id).id),
           ("ffsUrl", (agg a.id).ffsUrlEndpoint),
           ("alertUrl", (agg a.id).alertUrl)]) := by
    rw [List.map_map]
    apply List.map_congr_left
    intro a _
    rfl
  unfold list_alert_urls
  rw [alertSearchLoop_from_start search k fuel hk hshort hlong hfuel]
  show some (((((List.range' 1 k).map search).flatten).map Alert.id).map
      (alertRecord agg), List.range' 1 k) = _
  rw [hfun]

/-- Aggregate lookup used by the concrete witness of the record shape. -/
def aggFixture : String → AlertAggregate := fun alert_id =>
  AlertAggregate.mk alert_id ("ffs-" ++ alert_id) ("url-" ++ alert_id)

/-- Witness for C4 at a concrete input. -/
theorem list_alert_urls_three_field_records_witness :
    (1 ≤ 2 ∧ (searchFixture 2).length < 500
        ∧ (∀ i, 1 ≤ i → i < 2 → 500 ≤ (searchFixture i).length)
        ∧ 2 - 1 ≤ 1)
      ∧ list_alert_urls searchFixture aggFixture 1
        = some ((((List.range' 1 2).map searchFixture).flatten).map (fun a =>
              [("id", (aggFixture a.id).id),
               ("ffsUrl", (aggFixture a.id).ffsUrlEndpoint),
               ("alertUrl", (aggFixture a.id).alertUrl)]),
            List.range' 1 2) := by
  have hlong : ∀ i, 1 ≤ i → i < 2 → 500 ≤ (searchFixture i).length := by
    intro i h1 h2
    have hi : i = 1 := by omega
    subst hi
    rw [searchFixture_one, List.length_replicate]
  have hshort : (searchFixture 2).length < 500 := by
    rw [searchFixture_two]
    norm_num
  refine ⟨⟨by omega, hshort, hlong, by omega⟩, ?_⟩
  exact list_alert_urls_three_field_records searchFixture aggFixture 2 1
    (by omega) hshort hlong (by omega)

/-! ## The jules command group and the session frame property

The injected SDK/session handle is modelled as an explicit `Session` value
threaded through every command; all remote data a command can read is bundled
in `Remote`.  Each branch of `runJules` is the embedding of the corresponding
command body, none of which assigns to the session. -/

/-- The injected session handle: the state owned by the surrounding CLI
framework that every command receives. -/
structure Session where
  profileName : String
  authToken : String
deriving DecidableEq

/-- All remote responses and external collaborators a command invocation may
read through the SDK handle. -/
structure Remote where
  userPages : List (List DirectoryUser)
  managerLookup : String → Option String
  orgPages : List (List String)
  orgByUid : String → String
  auditPages : List (List AuditEvent)
  auditPagesFrom : Nat → List (Option (List AuditEvent))
  devicePages : List (List String)
  deviceReport : String → String
  securitydata : SecurityData
  alertSearch : Nat → List Alert
  alertAggregate : String → AlertAggregate
  timestampParses : String → Bool
  defaultSearchTimestamp : Nat

/-- The commands of the `jules` group with their arguments. -/
inductive JulesCmd where
  | listManagersCmd
  | listOrgsCmd
  | showOrgCmd (org_id : String)
  | verifyAuditLogDatesCmd
  | devicesHealthCmd
  | downloadCmd (md5 sha256 : Option String) (save_as : String)
  | selectProfileCmd (choice : String)
  | showAlertAggregateCmd (alert_id : String)
  | listAlertUrlsCmd (fuel : Nat)
  | auditLogTotalCmd

/-- Output produced by one command invocation. -/
inductive CmdOut where
  | managersOut (managers : List (String × List String))
  | linesOut (lines : List String)
  | findingsOut (lines : List OutputLine)
  | downloadOut (effect : DownloadEffect)
  | aggregateOut (data : AlertAggregate)
  | alertUrlsOut (result : Option (List (List (String × String)) × List Nat))
  | totalOut (n : Nat)
  | profileOut (name : String)

/-- Embedding of the whole `jules` command group (jules42.py lines 17-181):
dispatch one command, producing its output and the session it hands back. -/
def runJules (r : Remote) : JulesCmd → Session → CmdOut × Session
  | JulesCmd.listManagersCmd, s =>
      (CmdOut.managersOut (list_managers r.managerLookup r.userPages), s)
  | JulesCmd.listOrgsCmd, s => (CmdOut.linesOut r.orgPages.flatten, s)
  | JulesCmd.showOrgCmd org_id, s => (CmdOut.linesOut [r.orgByUid org_id], s)
  | JulesCmd.verifyAuditLogDatesCmd, s =>
      (CmdOut.findingsOut
        (verify_audit_log_dates r.timestampParses r.auditPages), s)
  | JulesCmd.devicesHealthCmd, s =>
      (CmdOut.linesOut (r.devicePages.flatten.map r.deviceReport), s)
  | JulesCmd.downloadCmd md5 sha256 save_as, s =>
      (CmdOut.downloadOut (download r.securitydata md5 sha256 save_as), s)
  | JulesCmd.selectProfileCmd choice, s => (CmdOut.profileOut choice, s)
  | JulesCmd.showAlertAggregateCmd alert_id, s =>
      (CmdOut.aggregateOut (r.alertAggregate alert_id), s)
  | JulesCmd.listAlertUrlsCmd fuel, s =>
      (CmdOut.alertUrlsOut
        (list_alert_urls r.alertSearch r.alertAggregate fuel), s)
  | JulesCmd.auditLogTotalCmd, s =>
      (CmdOut.totalOut
        (audit_log_total (r.auditPagesFrom r.defaultSearchTimestamp)), s)

/-- C9: every command of the jules group, run against any remote responses,
hands the injected session handle back unchanged — commands only read from
the session, never mutate it. -/
theorem jules_commands_preserve_session (r : Remote) (c : JulesCmd)
    (s : Session) : (runJules r c s).2 = s := by
  cases c <;> rfl

